import Mathlib

/-!
Verification of the demand-forecasting pipeline
(`ml/app.py` — Flask inference API, and `ml/demand_forecasting_train.py` —
training pipeline).

The Python sources are shallowly embedded below:

* dates and the calendar-feature derivation (`datetime.date.weekday`,
  `date.isocalendar`, and pandas' `dt.quarter`) are modelled over a
  `Date` structure with the proleptic-Gregorian ordinal arithmetic that
  CPython's `datetime` module uses;
* the marshmallow request schema (`PredictSchema`) becomes `schemaLoad`,
  a function from a JSON-object association list to `Option Record`;
* `preprocess_input` becomes an `Option`-valued function: `none` models
  an uncaught Python exception (`KeyError` from `le_map[col]` or from
  the `DataFrame` column selection), while the `except ValueError`
  fallback for unseen labels is the total function `encodeCat`;
* the `/predict` and `/predict/batch` endpoints become `predictSingle`
  and `predict_batch`, with the batch endpoint reproducing the
  placeholder/fill mechanics of the source (a results list holding
  `none` placeholders that are filled from `zip(valid_indices, preds)`);
* the training-side `time_split`, `evaluate`, `train_models` and
  `pick_best` are embedded over lists of rationals; `np.sqrt` (used by
  `evaluate` for the RMSE) is an explicit function parameter because
  real square roots are not rational — every property proved below
  holds for an arbitrary choice of that parameter.

Numeric request fields are modelled by `Rat`; no floating-point
rounding behaviour is relevant to the statements proved here (the one
place it could matter, the `int(n * (1 - test_ratio))` split index, is
noted at `time_split`).
-/

namespace DemandForecast

/-! ## Dates and calendar features (app.py lines 73-78, train lines 45-51) -/

/-- A calendar date, as produced by marshmallow's `fields.Date` parser
(year-month-day in the proleptic Gregorian calendar). -/
structure Date where
  year : Nat
  month : Nat
  day : Nat
  deriving DecidableEq, Repr

/-- Gregorian leap-year rule, as in CPython `datetime._is_leap`. -/
def isLeap (y : Nat) : Bool :=
  (y % 4 == 0 && y % 100 != 0) || (y % 400 == 0)

/-- Number of days in a month, as in CPython `datetime._days_in_month`. -/
def daysInMonth (y m : Nat) : Nat :=
  if m == 2 then (if isLeap y then 29 else 28)
  else if m == 4 || m == 6 || m == 9 || m == 11 then 30
  else 31

/-- Days in the year strictly before month `m`
(CPython `datetime._days_before_month`). -/
def daysBeforeMonth (y m : Nat) : Nat :=
  (List.range (m - 1)).foldl (fun acc i => acc + daysInMonth y (i + 1)) 0

/-- Days before January 1st of year `y`
(CPython `datetime._days_before_year`). -/
def daysBeforeYear (y : Nat) : Nat :=
  365 * (y - 1) + (y - 1) / 4 - (y - 1) / 100 + (y - 1) / 400

/-- Proleptic Gregorian ordinal of a date, with 0001-01-01 having
ordinal 1 (CPython `date.toordinal`). -/
def toordinal (d : Date) : Nat :=
  daysBeforeYear d.year + daysBeforeMonth d.year d.month + d.day

/-- Day of week with Monday = 0 (CPython `date.weekday`; 0001-01-01 was
a Monday, so the ordinal is shifted by 6 before reduction mod 7). This
is also pandas' `dt.dayofweek` convention. -/
def weekday (d : Date) : Nat :=
  (toordinal d + 6) % 7

/-- Ordinal of the Monday starting ISO week 1 of year `y`
(CPython `datetime._isoweek1monday`). -/
def isoweek1monday (y : Nat) : Int :=
  let firstday : Int := toordinal ⟨y, 1, 1⟩
  let firstweekday : Int := (firstday + 6) % 7
  let week1monday := firstday - firstweekday
  if firstweekday > 3 then week1monday + 7 else week1monday

/-- ISO-8601 week number of a date (CPython `date.isocalendar`, week
component; also pandas' `dt.isocalendar().week`). -/
def isoWeek (d : Date) : Int :=
  let today : Int := toordinal d
  let week := (today - isoweek1monday d.year).fdiv 7
  if week < 0 then
    (today - isoweek1monday (d.year - 1)).fdiv 7 + 1
  else if week ≥ 52 ∧ today ≥ isoweek1monday (d.year + 1) then 1
  else week + 1

/-- The six derived calendar features that both `preprocess_input`
(app.py lines 73-78) and the training-side `preprocess`
(train lines 46-51) compute from the date. -/
structure CalendarFeatures where
  year : Nat
  month : Nat
  day : Nat
  week : Int
  dayofweek : Nat
  quarter : Nat
  deriving DecidableEq, Repr

/-- Calendar derivation: `year`, `month`, `day`, ISO `week`,
`dayofweek` (0 = Monday) and `quarter = (month - 1) // 3 + 1`.
Pandas' `dt.quarter` agrees with this formula. -/
def calendarOf (d : Date) : CalendarFeatures :=
  { year := d.year
    month := d.month
    day := d.day
    week := isoWeek d
    dayofweek := weekday d
    quarter := (d.month - 1) / 3 + 1 }

example : calendarOf ⟨2024, 3, 15⟩ = ⟨2024, 3, 15, 11, 4, 1⟩ := by decide

example : weekday ⟨2024, 3, 11⟩ = 0 := by decide

example : isoWeek ⟨2023, 1, 1⟩ = 52 := by decide

example : isoWeek ⟨2021, 1, 1⟩ = 53 := by decide

example : isoWeek ⟨2024, 12, 30⟩ = 1 := by decide

/-! ## Request schema (app.py lines 36-56, `PredictSchema`) -/

/-- A JSON scalar as it appears in a request body after parsing: a date
string already parsed by `fields.Date` (`vDate`), an integer, a number,
or a string.  Marshmallow's `fields.Float` accepts both `vInt` and
`vNum`; `fields.Int` requires `vInt`. -/
inductive FieldVal where
  | vDate (d : Date)
  | vInt (n : Int)
  | vNum (q : Rat)
  | vStr (s : String)
  deriving DecidableEq, Repr

def VALID_CATEGORIES : List String :=
  ["Electronics", "Clothing", "Furniture", "Groceries", "Toys"]

def VALID_REGIONS : List String :=
  ["North", "South", "East", "West"]

def VALID_WEATHER : List String :=
  ["Sunny", "Rainy", "Snowy", "Cloudy", "Windy"]

def VALID_SEASONALITY : List String :=
  ["Spring", "Summer", "Autumn", "Winter"]

/-- A validated request record — the typed dictionary that
`predict_schema.load` returns on success. -/
structure Record where
  date : Date
  category : String
  region : String
  inventory_level : Int
  units_sold : Int
  units_ordered : Int
  price : Rat
  discount : Rat
  weather_condition : String
  promotion : Int
  competitor_pricing : Rat
  seasonality : String
  epidemic : Int
  deriving DecidableEq, Repr

/-- A raw JSON object: an association list of keys to values.  Python
dicts have unique keys; lookups below take the first match, which
coincides with dict lookup on duplicate-free key lists. -/
def RawItem : Type := List (String × FieldVal)

/-- Dictionary lookup on a JSON object. -/
def lookupField (raw : RawItem) (k : String) : Option FieldVal :=
  (List.find? (fun kv => kv.1 == k) raw).map (fun kv => kv.2)

/-- The thirteen keys `PredictSchema` declares. -/
def schemaKeys : List String :=
  ["date", "category", "region", "inventory_level", "units_sold",
   "units_ordered", "price", "discount", "weather_condition",
   "promotion", "competitor_pricing", "seasonality", "epidemic"]

/-- A date parses only if it denotes an actual calendar date
(marshmallow's `%Y-%m-%d` parser rejects impossible dates; Python
`date` years run 1-9999). -/
def dateOk (d : Date) : Bool :=
  1 ≤ d.year && d.year ≤ 9999 && 1 ≤ d.month && d.month ≤ 12 &&
    1 ≤ d.day && d.day ≤ daysInMonth d.year d.month

/-- Field loader for `fields.Date(required=True)`. -/
def getDate : Option FieldVal → Option Date
  | some (.vDate d) => if dateOk d then some d else none
  | _ => none

/-- Field loader for `fields.Str` with a `OneOf` vocabulary. -/
def getStrIn (vocab : List String) : Option FieldVal → Option String
  | some (.vStr s) => if s ∈ vocab then some s else none
  | _ => none

/-- Field loader for `fields.Int` with `Range(min=0)`. -/
def getNonNegInt : Option FieldVal → Option Int
  | some (.vInt n) => if 0 ≤ n then some n else none
  | _ => none

/-- Field loader for `fields.Int` with `OneOf([0, 1])`. -/
def getBit : Option FieldVal → Option Int
  | some (.vInt n) => if n = 0 ∨ n = 1 then some n else none
  | _ => none

/-- Field loader for `fields.Float` with `Range(min=0.0)` (floats also
accept integer JSON values). -/
def getNonNegNum : Option FieldVal → Option Rat
  | some (.vNum q) => if 0 ≤ q then some q else none
  | some (.vInt n) => if 0 ≤ (n : Rat) then some (n : Rat) else none
  | _ => none

/-- Field loader for `discount`: `fields.Float` with
`Range(min=0.0, max=100.0)`. -/
def getDiscount : Option FieldVal → Option Rat
  | some (.vNum q) => if 0 ≤ q ∧ q ≤ 100 then some q else none
  | some (.vInt n) => if 0 ≤ (n : Rat) ∧ (n : Rat) ≤ 100 then some (n : Rat) else none
  | _ => none

/-- Loader for `units_sold`, which has `load_default=0`: an absent key
yields 0, a present key must be a non-negative integer. -/
def getUnitsSold : Option FieldVal → Option Int
  | none => some 0
  | some (.vInt n) => if 0 ≤ n then some n else none
  | _ => none

/-- Model of `predict_schema.load`: `some` on a record satisfying every
declared field constraint, `none` on a `ValidationError`.  Marshmallow
3 raises on unknown keys by default, hence the `schemaKeys` guard.
(Marshmallow's optional coercion of numeric strings is not modelled;
the claims proved below do not depend on it.) -/
def schemaLoad (raw : RawItem) : Option Record :=
  if raw.all (fun kv => schemaKeys.contains kv.1) then do
    let date ← getDate (lookupField raw "date")
    let category ← getStrIn VALID_CATEGORIES (lookupField raw "category")
    let region ← getStrIn VALID_REGIONS (lookupField raw "region")
    let inventory_level ← getNonNegInt (lookupField raw "inventory_level")
    let units_sold ← getUnitsSold (lookupField raw "units_sold")
    let units_ordered ← getNonNegInt (lookupField raw "units_ordered")
    let price ← getNonNegNum (lookupField raw "price")
    let discount ← getDiscount (lookupField raw "discount")
    let weather_condition ← getStrIn VALID_WEATHER (lookupField raw "weather_condition")
    let promotion ← getBit (lookupField raw "promotion")
    let competitor_pricing ← getNonNegNum (lookupField raw "competitor_pricing")
    let seasonality ← getStrIn VALID_SEASONALITY (lookupField raw "seasonality")
    let epidemic ← getBit (lookupField raw "epidemic")
    pure { date, category, region, inventory_level, units_sold,
           units_ordered, price, discount, weather_condition,
           promotion, competitor_pricing, seasonality, epidemic }
  else none

/-! ## Artifact bundle and `preprocess_input` (app.py lines 26-97) -/

/-- A fitted `sklearn.LabelEncoder`: its `classes_` array.  `transform`
maps a string to its index in `classes` and raises `ValueError` when
the string is absent. -/
structure Encoder where
  classes : List String
  deriving DecidableEq, Repr

/-- `LabelEncoder.transform` on one label: `none` models the
`ValueError` raised for a label outside the training vocabulary. -/
def label_transform (le : Encoder) (s : String) : Option Nat :=
  le.classes.findIdx? (fun c => c == s)

/-- The body of the `try/except ValueError` at app.py lines 90-94: an
unseen label is replaced by the fallback code 0. -/
def encodeCat (le : Encoder) (s : String) : Nat :=
  match label_transform le s with
  | some i => i
  | none => 0

/-- The artifact bundle loaded by `load_artifacts`: the frozen model,
the fitted scaler, the per-column label encoders and the canonical
feature-name ordering.  The model is its `predict` function on one
feature row; the scaler is its `transform` function (persisted by
training, loaded by serving). -/
structure Artifacts where
  model : List Rat → Rat
  scaler : List Rat → List Rat
  le_map : List (String × Encoder)
  feature_names : List String

/-- Dictionary lookup in `le_map` (`le_map[col]`; `none` models the
`KeyError` on a missing column). -/
def leLookup (a : Artifacts) (col : String) : Option Encoder :=
  (List.find? (fun kv => kv.1 == col) a.le_map).map (fun kv => kv.2)

/-- The `col_key_map` literal at app.py lines 81-86. -/
def colKeyMap : List (String × String) :=
  [("Category", "category"), ("Region", "region"),
   ("Weather Condition", "weather_condition"), ("Seasonality", "seasonality")]

/-- The record field holding the raw categorical value for a
`col_key_map` key (`data[key]`). -/
def catValue (r : Record) (key : String) : String :=
  if key == "category" then r.category
  else if key == "region" then r.region
  else if key == "weather_condition" then r.weather_condition
  else r.seasonality

/-- The `row` dict after the numeric and calendar assignments
(app.py lines 64-79), in insertion order. -/
def baseRow (r : Record) : List (String × Rat) :=
  let c := calendarOf r.date
  [("Inventory Level", (r.inventory_level : Rat)),
   ("Units Sold", (r.units_sold : Rat)),
   ("Units Ordered", (r.units_ordered : Rat)),
   ("Price", r.price),
   ("Discount", r.discount),
   ("Promotion", (r.promotion : Rat)),
   ("Competitor Pricing", r.competitor_pricing),
   ("Epidemic", (r.epidemic : Rat)),
   ("year", (c.year : Rat)),
   ("month", (c.month : Rat)),
   ("day", (c.day : Rat)),
   ("week", (c.week : Rat)),
   ("dayofweek", (c.dayofweek : Rat)),
   ("quarter", (c.quarter : Rat))]

/-- The four categorical entries added by the loop at app.py
lines 87-94.  `none` models the uncaught `KeyError` from `le_map[col]`
(the `except ValueError` clause does not catch it). -/
def catRow (r : Record) (a : Artifacts) : Option (List (String × Rat)) :=
  colKeyMap.mapM (fun ck =>
    (leLookup a ck.1).map (fun le => (ck.1, (encodeCat le (catValue r ck.2) : Rat))))

/-- The complete `row` dict at the end of the loop. -/
def rowOf (r : Record) (a : Artifacts) : Option (List (String × Rat)) :=
  (catRow r a).map (fun cats => baseRow r ++ cats)

/-- Column lookup in the row dict. -/
def rowLookup (row : List (String × Rat)) (c : String) : Option Rat :=
  (List.find? (fun kv => kv.1 == c) row).map (fun kv => kv.2)

/-- Model of `preprocess_input` (app.py lines 59-97): assemble the row,
then select columns by name in `feature_names` order — the semantics of
`pd.DataFrame([row])[feature_names]`, whose `KeyError` on a name absent
from the row is modelled by `none`. -/
def preprocess_input (r : Record) (a : Artifacts) : Option (List Rat) := do
  let row ← rowOf r a
  a.feature_names.mapM (rowLookup row)

/-- The 18 column names `preprocess_input` assembles into `row`. -/
def assembledCols : List String :=
  ["Inventory Level", "Units Sold", "Units Ordered", "Price", "Discount",
   "Promotion", "Competitor Pricing", "Epidemic",
   "year", "month", "day", "week", "dayofweek", "quarter",
   "Category", "Region", "Weather Condition", "Seasonality"]

/-- The bundle-artifact precondition for `preprocess_input` to return a
vector: every canonical feature name is one of the 18 assembled
columns, and `le_map` has an encoder for each of the four categorical
columns. -/
def bundleOk (a : Artifacts) : Prop :=
  (∀ c ∈ a.feature_names, c ∈ assembledCols) ∧
    (∀ ck ∈ colKeyMap, (leLookup a ck.1).isSome)

instance (a : Artifacts) : Decidable (bundleOk a) := by
  unfold bundleOk; infer_instance

/-! ## Serving endpoints (app.py lines 150-187) -/

/-- Python 3 `round` rounds exact halves to the nearest even integer;
elsewhere it agrees with rounding to nearest. -/
def roundHalfEven (q : Rat) : Int :=
  if q - ⌊q⌋ = 1 / 2 then (if ⌊q⌋ % 2 = 0 then ⌊q⌋ else ⌊q⌋ + 1)
  else round q

/-- Model of `round(x, 2)`, applied to the prediction in both
endpoints. -/
def round2 (q : Rat) : Rat :=
  (roundHalfEven (q * 100) : Rat) / 100

/-- Outcomes other than a successful prediction: a 422 validation
failure, a 413 capacity rejection, and a 500 from an exception escaping
the handler. -/
inductive ApiError where
  | validationFailed
  | capacityExceeded (n limit : Nat)
  | internalError
  deriving DecidableEq, Repr

/-- The `/predict` endpoint (app.py lines 150-162) on an already parsed
JSON object, returning the `demand` value of the response. -/
def predictSingle (raw : RawItem) (a : Artifacts) : Except ApiError Rat :=
  match schemaLoad raw with
  | none => .error .validationFailed
  | some data =>
    match preprocess_input data a with
    | none => .error .internalError
    | some x => .ok (round2 (a.model x))

/-- One entry of the batch response: `{demand: d, status: "ok"}` or
`{demand: null, status: "error", ...}`. -/
inductive BatchItem where
  | ok (demand : Rat)
  | error
  deriving DecidableEq, Repr

/-- The three accumulators of the loop at app.py lines 172-180:
`results` (with `None` placeholders for valid items), `valid_indices`
and `rows`. -/
structure BatchState where
  results : List (Option BatchItem)
  valid_indices : List Nat
  rows : List (List Rat)
  deriving Repr

/-- One iteration of the batch loop: a valid item appends a placeholder
and its feature row; a `ValidationError` appends an error entry; any
other exception from `preprocess_input` escapes (modelled by `none`). -/
def batchStep (a : Artifacts) (st : BatchState) (i : Nat) (item : RawItem) :
    Option BatchState :=
  match schemaLoad item with
  | some data =>
    match preprocess_input data a with
    | some x =>
      some { results := st.results ++ [none],
             valid_indices := st.valid_indices ++ [i],
             rows := st.rows ++ [x] }
    | none => none
  | none => some { st with results := st.results ++ [some .error] }

/-- The `for i, item in enumerate(raw)` loop. -/
def batchLoop (a : Artifacts) : Nat → BatchState → List RawItem → Option BatchState
  | _, st, [] => some st
  | i, st, item :: rest => do
    let st' ← batchStep a st i item
    batchLoop a (i + 1) st' rest

/-- The fill pass at app.py lines 184-185: `results[idx] = ok-entry`
for each `(idx, pred)` in `zip(valid_indices, preds)`. -/
def fillPreds (results : List (Option BatchItem)) (pairs : List (Nat × Rat)) :
    List (Option BatchItem) :=
  pairs.foldl (fun res ip => res.set ip.1 (some (.ok (round2 ip.2)))) results

/-- The `/predict/batch` endpoint (app.py lines 164-187) on an already
parsed JSON array.  `max_batch` is the configured `MAX_BATCH_SIZE` (default 256).
`model.predict` on the stacked matrix is row-wise application of the
model. -/
def predict_batch (raw : List RawItem) (a : Artifacts) (max_batch : Nat) :
    Except ApiError (List (Option BatchItem)) :=
  if raw.length > max_batch then .error (.capacityExceeded raw.length max_batch)
  else
    match batchLoop a 0 ⟨[], [], []⟩ raw with
    | none => .error .internalError
    | some st =>
      if st.rows.isEmpty then .ok st.results
      else .ok (fillPreds st.results (st.valid_indices.zip (st.rows.map a.model)))

/-! ## Training pipeline (demand_forecasting_train.py) -/

/-- Chronological train/test split (train lines 71-77): the first
`int(n * (1 - test_ratio))` records train, the rest test.  The Python
expression computes in binary floating point; for every list length
below 2^50 and ratio 0.2 the float result equals the exact
`⌊n * 0.8⌋` modelled here, so the split index is embedded exactly. -/
def time_split {α β : Type} (X : List α) (y : List β) ( test_ratio : Rat) :
    List α × List α × List β × List β :=
  let n := X.length
  let split_idx := ((n : Rat) * (1 - test_ratio)).floor.toNat
  (X.take split_idx, X.drop split_idx, y.take split_idx, y.drop split_idx)

def mean (l : List Rat) : Rat := l.sum / (l.length : Rat)

def mean_absolute_error (y_true y_pred : List Rat) : Rat :=
  mean ((y_true.zip y_pred).map (fun p => |p.1 - p.2|))

def mean_squared_error (y_true y_pred : List Rat) : Rat :=
  mean ((y_true.zip y_pred).map (fun p => (p.1 - p.2) ^ 2))

def r2_score (y_true y_pred : List Rat) : Rat :=
  let ss_res := ((y_true.zip y_pred).map (fun p => (p.1 - p.2) ^ 2)).sum
  let ybar := mean y_true
  let ss_tot := (y_true.map (fun v => (v - ybar) ^ 2)).sum
  1 - ss_res / ss_tot

/-- One row of the `results` table built by `evaluate`
(train lines 87-96). -/
structure MetricsRow where
  model : String
  MAE : Rat
  RMSE : Rat
  R2 : Rat
  deriving DecidableEq, Repr

/-- Model of `evaluate` (train lines 87-96).  `np.sqrt` is passed in as
a parameter because real square roots are not rational; every theorem
below holds for an arbitrary choice of it. -/
def evaluate (sqrt : Rat → Rat) (name : String) (y_true y_pred : List Rat) :
    MetricsRow :=
  { model := name
    MAE := mean_absolute_error y_true y_pred
    RMSE := sqrt (mean_squared_error y_true y_pred)
    R2 := r2_score y_true y_pred }

/-- An opaque fit-then-predict pipeline for one candidate model: train
matrix, train targets, then the matrix to predict on. -/
def Fitter : Type :=
  List (List Rat) → List Rat → List (List Rat) → List Rat

/-- Model of `train_models` (train lines 99-117): fit the linear model
on the scaled matrices and the two tree ensembles on the unscaled ones,
evaluating each candidate on the held-out tail; returns the results
table in fit order together with the three fitted predictors. -/
def train_models (sqrt : Rat → Rat) (fitLR fitRF fitXGB : Fitter)
    (X_train X_test : List (List Rat)) (y_train y_test : List Rat)
    (X_train_sc X_test_sc : List (List Rat)) :
    List MetricsRow × (List (List Rat) → List Rat) ×
      (List (List Rat) → List Rat) × (List (List Rat) → List Rat) :=
  ([evaluate sqrt "LinearRegression" y_test (fitLR X_train_sc y_train X_test_sc),
    evaluate sqrt "RandomForest" y_test (fitRF X_train y_train X_test),
    evaluate sqrt "XGBoost" y_test (fitXGB X_train y_train X_test)],
   fitLR X_train_sc y_train, fitRF X_train y_train, fitXGB X_train y_train)

/-- Index bookkeeping for `Series.idxmin`: `pos` is the index of the
next element, `best`/`bestVal` the first minimum seen so far.  The
strict comparison keeps the earliest index on ties, exactly as pandas
`idxmin` returns the first occurrence of the minimum. -/
def idxminAux (pos best : Nat) (bestVal : Rat) : List Rat → Nat
  | [] => best
  | x :: xs =>
    if x < bestVal then idxminAux (pos + 1) pos x xs
    else idxminAux (pos + 1) best bestVal xs

/-- `results_df["RMSE"].idxmin()` over a default integer index;
`none` models the exception on an empty table. -/
def idxmin : List Rat → Option Nat
  | [] => none
  | x :: xs => some (idxminAux 1 0 x xs)

/-- Model of `pick_best` (train lines 120-123): the `model` cell of the
row whose RMSE is minimal, earliest row on ties. -/
def pick_best (results : List MetricsRow) : Option String :=
  (idxmin (results.map (fun r => r.RMSE))).bind
    (fun i => (results.get? i).map (fun r => r.model))

example :
    pick_best [⟨"LinearRegression", 5, 9, (1 : Rat) / 2⟩,
               ⟨"RandomForest", 1, 7, (3 : Rat) / 4⟩,
               ⟨"XGBoost", 2, 8, (9 : Rat) / 10⟩] = some "RandomForest" := by
  decide

example :
    time_split ["a", "b", "c", "d", "e"] [1, 2, 3, 4, 5] ((1 : Rat) / 5) =
      (["a", "b", "c", "d"], ["e"], [1, 2, 3, 4], [5]) := by
  with_unfolding_all rfl

/-! ## Helper lemmas -/

theorem mapM_option_spec {α β : Type} (f : α → Option β) :
    ∀ (l : List α) (v : List β), l.mapM f = some v →
      v.length = l.length ∧ ∀ i : Nat, (l[i]?).bind f = v[i]?
  | [], v, h => by
    simp only [List.mapM_nil, pure, Option.some.injEq] at h
    subst h
    exact ⟨rfl, fun i => by simp⟩
  | x :: xs, v, h => by
    rw [List.mapM_cons] at h
    cases hfx : f x with
    | none => rw [hfx] at h; simp at h
    | some b =>
      rw [hfx] at h
      cases hxs : xs.mapM f with
      | none => rw [hxs] at h; simp at h
      | some bs =>
        rw [hxs] at h
        simp only [Option.bind_some, Option.pure_def, Option.bind_eq_bind,
          Option.some_bind, Option.some.injEq] at h
        subst h
        obtain ⟨hlen, hidx⟩ := mapM_option_spec f xs bs hxs
        refine ⟨by simpa using hlen, fun i => ?_⟩
        cases i with
        | zero => simp [hfx]
        | succ j => simpa using hidx j

theorem mapM_option_isSome {α β : Type} (f : α → Option β) :
    ∀ l : List α, (l.mapM f).isSome ↔ ∀ x ∈ l, (f x).isSome
  | [] => by simp only [List.mapM_nil, Option.pure_def, Option.isSome_some]; simp
  | x :: xs => by
    rw [List.mapM_cons]
    cases hfx : f x with
    | none => simp [hfx]
    | some b =>
      cases hxs : xs.mapM f with
      | none =>
        have hxs' : ¬ ∀ y ∈ xs, (f y).isSome := by
          intro hall
          have h2 := (mapM_option_isSome f xs).mpr hall
          rw [hxs] at h2
          simp at h2
        simp only [Option.pure_def, Option.bind_eq_bind, Option.some_bind,
          Option.none_bind, Option.isSome_none, Bool.false_eq_true, false_iff]
        intro hall
        exact hxs' (fun y hy => hall y (List.mem_cons_of_mem x hy))
      | some bs =>
        have hall : ∀ y ∈ xs, (f y).isSome := by
          have h2 := mapM_option_isSome f xs
          rw [hxs] at h2
          exact h2.mp (by simp)
        simp only [Option.pure_def, Option.bind_eq_bind, Option.some_bind,
          Option.isSome_some, true_iff]
        intro y hy
        rcases List.mem_cons.mp hy with rfl | hmem
        · simp [hfx]
        · exact hall y hmem

theorem find?_map_isSome {β : Type} (l : List (String × β)) (c : String) :
    ((List.find? (fun kv => kv.1 == c) l).map (fun kv => kv.2)).isSome ↔
      c ∈ l.map Prod.fst := by
  rw [Option.isSome_map', List.find?_isSome]
  constructor
  · rintro ⟨kv, hmem, hbeq⟩
    exact List.mem_map.mpr ⟨kv, hmem, by simpa using hbeq⟩
  · intro hc
    obtain ⟨kv, hmem, hfst⟩ := List.mem_map.mp hc
    exact ⟨kv, hmem, by simp [hfst]⟩

theorem rowLookup_isSome_iff (row : List (String × Rat)) (c : String) :
    (rowLookup row c).isSome ↔ c ∈ row.map Prod.fst :=
  find?_map_isSome row c

theorem leLookup_isSome_iff (a : Artifacts) (col : String) :
    (leLookup a col).isSome ↔ col ∈ a.le_map.map Prod.fst :=
  find?_map_isSome a.le_map col

theorem lookupField_perm :
    ∀ {l₁ l₂ : RawItem}, l₁.Perm l₂ → (l₁.map Prod.fst).Nodup →
      ∀ k, lookupField l₁ k = lookupField l₂ k := by
  intro l₁ l₂ h
  induction h with
  | nil => exact fun _ _ => rfl
  | cons x h ih =>
    intro hn k
    simp only [List.map_cons, List.nodup_cons] at hn
    simp only [lookupField, List.find?_cons]
    cases hx : (x.1 == k)
    · simpa [lookupField] using ih hn.2 k
    · rfl
  | swap x y l =>
    intro hn k
    simp only [List.map_cons, List.nodup_cons, List.mem_cons] at hn
    have hxy : y.1 ≠ x.1 := fun he => hn.1 (Or.inl he)
    simp only [lookupField, List.find?_cons]
    cases hy : (y.1 == k) <;> cases hx : (x.1 == k) <;> simp
    exact absurd (by rw [eq_of_beq hy, eq_of_beq hx]) hxy
  | trans h₁ h₂ ih₁ ih₂ =>
    intro hn k
    rw [ih₁ hn k, ih₂ (((h₁.map Prod.fst).nodup_iff).mp hn) k]

theorem encodeCat_unseen (le : Encoder) (s : String) (h : s ∉ le.classes) :
    encodeCat le s = 0 := by
  have hnone : label_transform le s = none := by
    unfold label_transform
    rw [List.findIdx?_eq_none_iff]
    intro x hx
    simp only [beq_eq_false_iff_ne, ne_eq]
    exact fun he => h (he ▸ hx)
  unfold encodeCat
  rw [hnone]

theorem catRow_eq (r : Record) (a : Artifacts) (e1 e2 e3 e4 : Encoder)
    (h1 : leLookup a "Category" = some e1)
    (h2 : leLookup a "Region" = some e2)
    (h3 : leLookup a "Weather Condition" = some e3)
    (h4 : leLookup a "Seasonality" = some e4) :
    catRow r a = some
      [("Category", (encodeCat e1 r.category : Rat)),
       ("Region", (encodeCat e2 r.region : Rat)),
       ("Weather Condition", (encodeCat e3 r.weather_condition : Rat)),
       ("Seasonality", (encodeCat e4 r.seasonality : Rat))] := by
  simp only [catRow, colKeyMap, List.mapM_cons, List.mapM_nil, h1, h2, h3, h4,
    Option.map_some, Option.pure_def, Option.bind_eq_bind, Option.some_bind,
    catValue]
  rfl

theorem catRow_isSome_iff (r : Record) (a : Artifacts) :
    (catRow r a).isSome ↔ ∀ ck ∈ colKeyMap, (leLookup a ck.1).isSome := by
  unfold catRow
  rw [mapM_option_isSome]
  constructor <;> intro h ck hck
  · simpa using h ck hck
  · simpa using h ck hck

theorem rowOf_spec (r : Record) (a : Artifacts)
    (hb : ∀ ck ∈ colKeyMap, (leLookup a ck.1).isSome) :
    ∃ e1 e2 e3 e4 : Encoder,
      leLookup a "Category" = some e1 ∧ leLookup a "Region" = some e2 ∧
      leLookup a "Weather Condition" = some e3 ∧ leLookup a "Seasonality" = some e4 ∧
      rowOf r a = some (baseRow r ++
        [("Category", (encodeCat e1 r.category : Rat)),
         ("Region", (encodeCat e2 r.region : Rat)),
         ("Weather Condition", (encodeCat e3 r.weather_condition : Rat)),
         ("Seasonality", (encodeCat e4 r.seasonality : Rat))]) := by
  obtain ⟨e1, h1⟩ := Option.isSome_iff_exists.mp
    (hb ("Category", "category") (by simp [colKeyMap]))
  obtain ⟨e2, h2⟩ := Option.isSome_iff_exists.mp
    (hb ("Region", "region") (by simp [colKeyMap]))
  obtain ⟨e3, h3⟩ := Option.isSome_iff_exists.mp
    (hb ("Weather Condition", "weather_condition") (by simp [colKeyMap]))
  obtain ⟨e4, h4⟩ := Option.isSome_iff_exists.mp
    (hb ("Seasonality", "seasonality") (by simp [colKeyMap]))
  exact ⟨e1, e2, e3, e4, h1, h2, h3, h4, by
    simp [rowOf, catRow_eq r a e1 e2 e3 e4 h1 h2 h3 h4]⟩

theorem baseRow_keys (r : Record) :
    (baseRow r).map Prod.fst =
      ["Inventory Level", "Units Sold", "Units Ordered", "Price", "Discount",
       "Promotion", "Competitor Pricing", "Epidemic",
       "year", "month", "day", "week", "dayofweek", "quarter"] := rfl

theorem rowOf_keys (r : Record) (a : Artifacts) (row : List (String × Rat))
    (h : rowOf r a = some row) : row.map Prod.fst = assembledCols := by
  have hb : ∀ ck ∈ colKeyMap, (leLookup a ck.1).isSome := by
    refine (catRow_isSome_iff r a).mp ?_
    unfold rowOf at h
    cases hcm : catRow r a with
    | none => rw [hcm] at h; simp at h
    | some cats => simp
  obtain ⟨e1, e2, e3, e4, h1, h2, h3, h4, hrow⟩ := rowOf_spec r a hb
  rw [h] at hrow
  cases hrow
  simp [baseRow, assembledCols]

theorem preprocess_isSome_iff (r : Record) (a : Artifacts) :
    (preprocess_input r a).isSome ↔ bundleOk a := by
  constructor
  · intro h
    unfold preprocess_input at h
    cases hrow : rowOf r a with
    | none => rw [hrow] at h; simp at h
    | some row =>
      rw [hrow] at h
      simp only [Option.bind_eq_bind, Option.some_bind] at h
      have hcat : (catRow r a).isSome := by
        unfold rowOf at hrow
        cases hcm : catRow r a with
        | none => rw [hcm] at hrow; simp at hrow
        | some cats => simp
      refine ⟨?_, (catRow_isSome_iff r a).mp hcat⟩
      intro c hc
      have hlk := (mapM_option_isSome _ _).mp h c hc
      rw [rowLookup_isSome_iff] at hlk
      rwa [rowOf_keys r a row hrow] at hlk
  · rintro ⟨hfn, hks⟩
    obtain ⟨e1, e2, e3, e4, h1, h2, h3, h4, hrow⟩ := rowOf_spec r a hks
    unfold preprocess_input
    rw [hrow]
    simp only [Option.bind_eq_bind, Option.some_bind]
    rw [mapM_option_isSome]
    intro c hc
    rw [rowLookup_isSome_iff, rowOf_keys r a _ hrow]
    exact hfn c hc

theorem preprocess_spec (r : Record) (a : Artifacts) (v : List Rat)
    (h : preprocess_input r a = some v) :
    ∃ row, rowOf r a = some row ∧ v.length = a.feature_names.length ∧
      ∀ i : Nat, (a.feature_names[i]?).bind (rowLookup row) = v[i]? := by
  unfold preprocess_input at h
  cases hrow : rowOf r a with
  | none => rw [hrow] at h; simp at h
  | some row =>
    rw [hrow] at h
    simp only [Option.bind_eq_bind, Option.some_bind] at h
    obtain ⟨hlen, hidx⟩ := mapM_option_spec (rowLookup row) a.feature_names v h
    exact ⟨row, rfl, hlen, hidx⟩

theorem split_idx_eq (n : Nat) :
    ((n : Rat) * (1 - 1 / 5)).floor.toNat = 4 * n / 5 := by
  have hfl : ∀ q : Rat, q.floor = ⌊q⌋ := by
    intro q; rw [Rat.floor_def, Rat.floor_def']
  have h1 : (n : Rat) * (1 - 1 / 5) = ((4 * n : Int) : Rat) / ((5 : Nat) : Rat) := by
    push_cast; ring
  rw [hfl, h1, Rat.floor_intCast_div_natCast]
  rw [show (4 * (n : Int)) = ((4 * n : Nat) : Int) by push_cast; ring]
  rw [← Int.ofNat_ediv]
  exact Int.toNat_ofNat _

/-! ## Sample inputs used by the witnesses -/

/-- A record accepted by the schema (used as a concrete input). -/
def sampleRecord : Record :=
  { date := ⟨2024, 3, 15⟩, category := "Electronics", region := "North",
    inventory_level := 100, units_sold := 20, units_ordered := 30,
    price := 50, discount := 10, weather_condition := "Sunny",
    promotion := 1, competitor_pricing := 45, seasonality := "Spring",
    epidemic := 0 }

/-- Label encoders fitted on the full serving vocabularies (sklearn
sorts classes lexicographically). -/
def sampleEncoders : List (String × Encoder) :=
  [("Category", ⟨["Clothing", "Electronics", "Furniture", "Groceries", "Toys"]⟩),
   ("Region", ⟨["East", "North", "South", "West"]⟩),
   ("Weather Condition", ⟨["Cloudy", "Rainy", "Snowy", "Sunny", "Windy"]⟩),
   ("Seasonality", ⟨["Autumn", "Spring", "Summer", "Winter"]⟩)]

/-- A well-formed artifact bundle with a constant model. -/
def sampleArtifacts : Artifacts :=
  { model := fun _ => 7, scaler := fun v => v, le_map := sampleEncoders,
    feature_names := assembledCols }

/-- A raw JSON object that loads to `sampleRecord`. -/
def sampleRaw : RawItem :=
  [("date", .vDate ⟨2024, 3, 15⟩), ("category", .vStr "Electronics"),
   ("region", .vStr "North"), ("inventory_level", .vInt 100),
   ("units_sold", .vInt 20), ("units_ordered", .vInt 30),
   ("price", .vInt 50), ("discount", .vInt 10),
   ("weather_condition", .vStr "Sunny"), ("promotion", .vInt 1),
   ("competitor_pricing", .vInt 45), ("seasonality", .vStr "Spring"),
   ("epidemic", .vInt 0)]

/-- The same object with its keys in reverse order. -/
def sampleRawRev : RawItem := sampleRaw.reverse

/-- A raw object rejected by the schema (`discount` outside 0-100). -/
def sampleRawBad : RawItem :=
  [("date", .vDate ⟨2024, 3, 15⟩), ("category", .vStr "Electronics"),
   ("region", .vStr "North"), ("inventory_level", .vInt 100),
   ("units_sold", .vInt 20), ("units_ordered", .vInt 30),
   ("price", .vInt 50), ("discount", .vInt 150),
   ("weather_condition", .vStr "Sunny"), ("promotion", .vInt 1),
   ("competitor_pricing", .vInt 45), ("seasonality", .vStr "Spring"),
   ("epidemic", .vInt 0)]

example : schemaLoad sampleRaw = some sampleRecord := by decide

example : schemaLoad sampleRawBad = none := by decide

/-! ## Claims -/

/-- C8: The calendar derivation is a pure function of the date,
computing year, month, day, ISO week number, day-of-week with
0 = Monday, and quarter = (month - 1) / 3 + 1; for 2024-03-15 it
yields year 2024, month 3, day 15, dayofweek 4, quarter 1 and
ISO week 11. -/
theorem calendar_derivation :
    (∀ d : Date, calendarOf d =
      { year := d.year, month := d.month, day := d.day, week := isoWeek d,
        dayofweek := weekday d, quarter := (d.month - 1) / 3 + 1 })
    ∧ calendarOf ⟨2024, 3, 15⟩ =
      { year := 2024, month := 3, day := 15, week := 11, dayofweek := 4,
        quarter := 1 } :=
  ⟨fun _ => rfl, by decide⟩

/-- C4: With ratio 0.2, `time_split` puts exactly the first
`⌊N * 0.8⌋ = 4N / 5` records (by index position) into the training
subset and the rest into the test subset; the training subset agrees
positionally with the input below the split index, contains nothing at
or beyond it, and no shuffling occurs (train ++ test is the input). -/
theorem time_split_chronological {α β : Type} (X : List α) (y : List β) :
    time_split X y (1 / 5) =
      (X.take (4 * X.length / 5), X.drop (4 * X.length / 5),
       y.take (4 * X.length / 5), y.drop (4 * X.length / 5))
    ∧ (X.take (4 * X.length / 5)).length = 4 * X.length / 5
    ∧ (∀ i : Nat, i < 4 * X.length / 5 → (X.take (4 * X.length / 5))[i]? = X[i]?)
    ∧ (∀ j : Nat, (X.drop (4 * X.length / 5))[j]? = X[4 * X.length / 5 + j]?)
    ∧ X.take (4 * X.length / 5) ++ X.drop (4 * X.length / 5) = X := by
  refine ⟨?_, ?_, ?_, ?_, List.take_append_drop _ X⟩
  · show (X.take ((X.length : Rat) * (1 - 1 / 5)).floor.toNat,
          X.drop ((X.length : Rat) * (1 - 1 / 5)).floor.toNat,
          y.take ((X.length : Rat) * (1 - 1 / 5)).floor.toNat,
          y.drop ((X.length : Rat) * (1 - 1 / 5)).floor.toNat) = _
    rw [split_idx_eq]
  · rw [List.length_take]
    exact Nat.min_eq_left (by omega)
  · exact fun i hi => List.getElem?_take_of_lt hi
  · intro j
    exact List.getElem?_drop X _ j

theorem time_split_chronological_witness :
    time_split ["a", "b", "c", "d", "e"] [10, 20, 30, 40, 50] (1 / 5) =
      (["a", "b", "c", "d"], ["e"], [10, 20, 30, 40], [50])
    ∧ (∀ i : Nat, i < 4 →
        (["a", "b", "c", "d", "e"].take 4)[i]? = ["a", "b", "c", "d", "e"][i]?) := by
  have h := time_split_chronological (α := String) (β := Nat)
    ["a", "b", "c", "d", "e"] [10, 20, 30, 40, 50]
  refine ⟨?_, fun i hi => h.2.2.1 i (by simpa using hi)⟩
  rw [h.1]
  decide

/-- C10: `preprocess_input` returns a vector exactly when every name in
`feature_names` is one of the 18 assembled columns and the encoder map
has all four categorical columns; a name outside the assembled columns
or a missing encoder makes the call raise (modelled by `none`), and
that failure is not handled by the unseen-category fallback. -/
theorem preprocess_totality_iff (r : Record) (a : Artifacts) :
    (∃ v, preprocess_input r a = some v) ↔
      ((∀ c ∈ a.feature_names, c ∈ assembledCols) ∧
        ∀ ck ∈ colKeyMap, (leLookup a ck.1).isSome) := by
  rw [← Option.isSome_iff_exists]
  exact preprocess_isSome_iff r a

theorem preprocess_totality_iff_witness :
    ((∃ v, preprocess_input sampleRecord sampleArtifacts = some v) ↔
      ((∀ c ∈ sampleArtifacts.feature_names, c ∈ assembledCols) ∧
        ∀ ck ∈ colKeyMap, (leLookup sampleArtifacts ck.1).isSome))
    ∧ (¬ ∃ v, preprocess_input sampleRecord
        { sampleArtifacts with feature_names := ["Demand"] } = some v) := by
  refine ⟨preprocess_totality_iff sampleRecord sampleArtifacts, ?_⟩
  intro hex
  have h := (preprocess_totality_iff sampleRecord
    { sampleArtifacts with feature_names := ["Demand"] }).mp hex
  have := h.1 "Demand" (by decide)
  revert this
  decide

theorem schemaLoad_perm (raw₁ raw₂ : RawItem) (hperm : raw₁.Perm raw₂)
    (hnd : (raw₁.map Prod.fst).Nodup) : schemaLoad raw₁ = schemaLoad raw₂ := by
  have hlk := lookupField_perm hperm hnd
  have hall : (raw₁.all fun kv => schemaKeys.contains kv.1) =
      (raw₂.all fun kv => schemaKeys.contains kv.1) := by
    cases h2 : (raw₂.all fun kv => schemaKeys.contains kv.1) with
    | true =>
      rw [List.all_eq_true] at h2 ⊢
      exact fun kv hkv => h2 kv (hperm.subset hkv)
    | false =>
      rw [List.all_eq_false] at h2 ⊢
      obtain ⟨kv, hkv, hf⟩ := h2
      exact ⟨kv, hperm.symm.subset hkv, hf⟩
  unfold schemaLoad
  rw [hall]
  simp only [hlk]

/-- C1: For every raw record that passes schema validation and every
artifact bundle, the vector `preprocess_input` produces has exactly one
entry per name in `feature_names`, in exactly that order — the i-th
entry is the assembled row's value at the i-th feature name, so any
assembled field not named in `feature_names` is dropped — and the
result does not depend on the ordering of the keys of the raw input
object. -/
theorem preprocess_canonical_order (r : Record) (a : Artifacts) (v : List Rat)
    (raw₁ raw₂ : RawItem)
    (h : preprocess_input r a = some v)
    (hperm : raw₁.Perm raw₂) (hnd : (raw₁.map Prod.fst).Nodup) :
    v.length = a.feature_names.length
    ∧ (∀ i : Nat, (a.feature_names[i]?).bind
        (fun c => (rowOf r a).bind (fun row => rowLookup row c)) = v[i]?)
    ∧ (schemaLoad raw₁).bind (fun data => preprocess_input data a) =
        (schemaLoad raw₂).bind (fun data => preprocess_input data a) := by
  obtain ⟨row, hrow, hlen, hidx⟩ := preprocess_spec r a v h
  refine ⟨hlen, fun i => ?_, by rw [schemaLoad_perm raw₁ raw₂ hperm hnd]⟩
  rw [hrow]
  cases hfn : a.feature_names[i]? with
  | none => have := hidx i; rw [hfn] at this; simpa using this
  | some c =>
    have := hidx i
    rw [hfn] at this
    simpa using this

theorem preprocess_canonical_order_witness :
    ∃ v, preprocess_input sampleRecord sampleArtifacts = some v ∧
      (v.length = sampleArtifacts.feature_names.length
      ∧ (∀ i : Nat, (sampleArtifacts.feature_names[i]?).bind
          (fun c => (rowOf sampleRecord sampleArtifacts).bind
            (fun row => rowLookup row c)) = v[i]?)
      ∧ (schemaLoad sampleRaw).bind (fun data => preprocess_input data sampleArtifacts) =
          (schemaLoad sampleRawRev).bind (fun data => preprocess_input data sampleArtifacts)) := by
  refine ⟨(preprocess_input sampleRecord sampleArtifacts).getD [], by decide, ?_⟩
  exact preprocess_canonical_order sampleRecord sampleArtifacts _ sampleRaw sampleRawRev
    (by decide) (by decide) (by decide)

theorem rowLookup_unseen (r : Record) (a : Artifacts) (row : List (String × Rat))
    (hrow : rowOf r a = some row) (ck : String × String) (hck : ck ∈ colKeyMap)
    (le : Encoder) (hle : leLookup a ck.1 = some le)
    (hun : catValue r ck.2 ∉ le.classes) :
    rowLookup row ck.1 = some 0 := by
  have hb : ∀ ck' ∈ colKeyMap, (leLookup a ck'.1).isSome := by
    refine (catRow_isSome_iff r a).mp ?_
    unfold rowOf at hrow
    cases hcm : catRow r a with
    | none => rw [hcm] at hrow; simp at hrow
    | some cats => simp
  obtain ⟨e1, e2, e3, e4, h1, h2, h3, h4, hrow'⟩ := rowOf_spec r a hb
  rw [hrow] at hrow'
  injection hrow' with hreq
  subst hreq
  simp only [colKeyMap, List.mem_cons, List.not_mem_nil, or_false] at hck
  rcases hck with rfl | rfl | rfl | rfl
  · rw [h1] at hle
    injection hle with hle
    subst hle
    have hz : encodeCat e1 r.category = 0 :=
      encodeCat_unseen e1 r.category (by simpa [catValue] using hun)
    rw [hz, Nat.cast_zero]
    rfl
  · rw [h2] at hle
    injection hle with hle
    subst hle
    have hz : encodeCat e2 r.region = 0 :=
      encodeCat_unseen e2 r.region (by simpa [catValue] using hun)
    rw [hz, Nat.cast_zero]
    rfl
  · rw [h3] at hle
    injection hle with hle
    subst hle
    have hz : encodeCat e3 r.weather_condition = 0 :=
      encodeCat_unseen e3 r.weather_condition (by simpa [catValue] using hun)
    rw [hz, Nat.cast_zero]
    rfl
  · rw [h4] at hle
    injection hle with hle
    subst hle
    have hz : encodeCat e4 r.seasonality = 0 :=
      encodeCat_unseen e4 r.seasonality (by simpa [catValue] using hun)
    rw [hz, Nat.cast_zero]
    rfl

/-- C3: For every record whose raw categorical value (for one of the
four encoded columns) is absent from the fitted encoder's vocabulary,
`preprocess_input` does not raise: it substitutes the fallback code 0
(the lowest encoder index) for that column, and the resulting vector
still has the canonical length and column order. -/
theorem unseen_category_fallback (r : Record) (a : Artifacts)
    (ck : String × String) (le : Encoder)
    (hck : ck ∈ colKeyMap) (hle : leLookup a ck.1 = some le)
    (hun : catValue r ck.2 ∉ le.classes) (hb : bundleOk a) :
    (preprocess_input r a).isSome
    ∧ ((preprocess_input r a).getD []).length = a.feature_names.length
    ∧ ∀ i : Nat, a.feature_names[i]? = some ck.1 →
        ((preprocess_input r a).getD [])[i]? = some 0 := by
  have hsome := (preprocess_isSome_iff r a).mpr hb
  obtain ⟨v, hv⟩ := Option.isSome_iff_exists.mp hsome
  obtain ⟨row, hrow, hlen, hidx⟩ := preprocess_spec r a v hv
  have hcol : rowLookup row ck.1 = some 0 :=
    rowLookup_unseen r a row hrow ck hck le hle hun
  rw [hv]
  simp only [Option.getD_some, Option.isSome_some, true_and]
  refine ⟨hlen, fun i hi => ?_⟩
  have hbind := hidx i
  rw [hi] at hbind
  simp only [Option.some_bind] at hbind
  rw [hcol] at hbind
  exact hbind.symm

theorem unseen_category_fallback_witness :
    (preprocess_input { sampleRecord with region := "Central" } sampleArtifacts).isSome
    ∧ ((preprocess_input { sampleRecord with region := "Central" }
        sampleArtifacts).getD []).length = sampleArtifacts.feature_names.length
    ∧ ∀ i : Nat, sampleArtifacts.feature_names[i]? = some "Region" →
        ((preprocess_input { sampleRecord with region := "Central" }
          sampleArtifacts).getD [])[i]? = some 0 :=
  unseen_category_fallback { sampleRecord with region := "Central" } sampleArtifacts
    ("Region", "region") ⟨["East", "North", "South", "West"]⟩
    (by decide) (by decide) (by decide) (by decide)

theorem pick_best_three (a b c : MetricsRow) :
    pick_best [a, b, c] =
      some (if b.RMSE < a.RMSE then
              (if c.RMSE < b.RMSE then c.model else b.model)
            else (if c.RMSE < a.RMSE then c.model else a.model)) := by
  simp only [pick_best, List.map_cons, List.map_nil, idxmin, idxminAux]
  split_ifs <;> rfl

/-- C5: For every results table holding the three candidates'
(MAE, RMSE, R2) triples, `pick_best` returns exactly the model whose
RMSE is strictly minimal, including when that model does not have the
smallest MAE or the largest R2. -/
theorem pick_best_min_rmse (a b c r : MetricsRow)
    (hr : r ∈ [a, b, c])
    (hmin : ∀ x ∈ [a, b, c], x ≠ r → r.RMSE < x.RMSE) :
    pick_best [a, b, c] = some r.model := by
  rw [pick_best_three]
  simp only [List.mem_cons, List.not_mem_nil, or_false] at hr
  have hxa : a ≠ r → r.RMSE < a.RMSE := hmin a (by simp)
  have hxb : b ≠ r → r.RMSE < b.RMSE := hmin b (by simp)
  have hxc : c ≠ r → r.RMSE < c.RMSE := hmin c (by simp)
  split_ifs with h1 h2 h2
  · -- b.RMSE < a.RMSE and c.RMSE < b.RMSE: the winner is row c
    rcases hr with rfl | rfl | rfl
    · rcases eq_or_ne b r with rfl | hne
      · exact absurd h1 (lt_irrefl _)
      · exact absurd h1 (not_lt_of_gt (hxb hne))
    · rcases eq_or_ne c r with rfl | hne
      · exact absurd h2 (lt_irrefl _)
      · exact absurd h2 (not_lt_of_gt (hxc hne))
    · rfl
  · -- b.RMSE < a.RMSE and b.RMSE ≤ c.RMSE: the winner is row b
    rcases hr with rfl | rfl | rfl
    · rcases eq_or_ne b r with rfl | hne
      · exact absurd h1 (lt_irrefl _)
      · exact absurd h1 (not_lt_of_gt (hxb hne))
    · rfl
    · rcases eq_or_ne b r with rfl | hne
      · rfl
      · exact absurd (hxb hne) h2
  · -- a.RMSE ≤ b.RMSE and c.RMSE < a.RMSE: the winner is row c
    rcases hr with rfl | rfl | rfl
    · rcases eq_or_ne c r with rfl | hne
      · exact absurd h2 (lt_irrefl _)
      · exact absurd h2 (not_lt_of_gt (hxc hne))
    · rcases eq_or_ne c r with rfl | hne
      · exact absurd (lt_of_lt_of_le h2 (le_of_not_lt h1)) (lt_irrefl _)
      · exact absurd (lt_trans (hxc hne) h2) (not_lt_of_ge (le_of_not_lt h1))
    · rfl
  · -- a.RMSE ≤ b.RMSE and a.RMSE ≤ c.RMSE: the winner is row a
    rcases hr with rfl | rfl | rfl
    · rfl
    · rcases eq_or_ne a r with rfl | hne
      · rfl
      · exact absurd (hxa hne) h1
    · rcases eq_or_ne a r with rfl | hne
      · rfl
      · exact absurd (hxa hne) h2

theorem pick_best_min_rmse_witness :
    pick_best [⟨"LinearRegression", 1, 9, 3⟩, ⟨"RandomForest", 5, 7, 1⟩,
               ⟨"XGBoost", 2, 8, 2⟩] = some "RandomForest" :=
  pick_best_min_rmse ⟨"LinearRegression", 1, 9, 3⟩ ⟨"RandomForest", 5, 7, 1⟩
    ⟨"XGBoost", 2, 8, 2⟩ ⟨"RandomForest", 5, 7, 1⟩ (by decide) (by decide)

/-- C9: When candidates tie on the minimum RMSE, `pick_best` returns
the one appearing first in the results table, which `train_models`
builds in the fixed fit order LinearRegression, RandomForest,
XGBoost. -/
theorem pick_best_tie_fit_order (sqrt : Rat → Rat)
    (fitLR fitRF fitXGB : Fitter)
    (X_train X_test : List (List Rat)) (y_train y_test : List Rat)
    (X_train_sc X_test_sc : List (List Rat)) (a b c : MetricsRow)
    (hres : (train_models sqrt fitLR fitRF fitXGB X_train X_test y_train
        y_test X_train_sc X_test_sc).1 = [a, b, c]) :
    [a, b, c].map (fun m => m.model) =
      ["LinearRegression", "RandomForest", "XGBoost"]
    ∧ (a.RMSE ≤ b.RMSE → a.RMSE ≤ c.RMSE →
        pick_best [a, b, c] = some "LinearRegression")
    ∧ (b.RMSE < a.RMSE → b.RMSE ≤ c.RMSE →
        pick_best [a, b, c] = some "RandomForest") := by
  simp only [train_models] at hres
  injection hres with ha hres
  injection hres with hb hres
  injection hres with hc hres
  refine ⟨by simp [← ha, ← hb, ← hc, evaluate], ?_, ?_⟩
  · intro h1 h2
    rw [pick_best_three, if_neg (not_lt_of_ge h1), if_neg (not_lt_of_ge h2), ← ha]
    rfl
  · intro h1 h2
    rw [pick_best_three, if_pos h1, if_neg (not_lt_of_ge h2), ← hb]
    rfl

theorem pick_best_tie_fit_order_witness :
    pick_best [evaluate (fun _ => 0) "LinearRegression" [] [],
               evaluate (fun _ => 0) "RandomForest" [] [],
               evaluate (fun _ => 0) "XGBoost" [] []] =
      some "LinearRegression" := by
  have h := pick_best_tie_fit_order (fun _ => 0)
    (fun _ _ _ => []) (fun _ _ _ => []) (fun _ _ _ => [])
    [] [] [] [] [] [] _ _ _ rfl
  exact h.2.1 (le_refl _) (le_refl _)

theorem batchLoop_rows (a : Artifacts) :
    ∀ (items : List RawItem) (i : Nat) (st st' : BatchState),
      batchLoop a i st items = some st' →
      st'.rows = st.rows ++ items.filterMap
        (fun it => (schemaLoad it).bind (fun d => preprocess_input d a))
  | [], i, st, st', h => by
    injection h with h
    subst h
    simp
  | item :: rest, i, st, st', h => by
    simp only [batchLoop, Option.bind_eq_bind] at h
    cases hstep : batchStep a st i item with
    | none => rw [hstep] at h; simp at h
    | some st1 =>
      rw [hstep] at h
      simp only [Option.some_bind] at h
      have ih := batchLoop_rows a rest (i + 1) st1 st' h
      unfold batchStep at hstep
      cases hsl : schemaLoad item with
      | some data =>
        simp only [hsl] at hstep
        cases hpp : preprocess_input data a with
        | none => exact absurd hstep (by simp [hpp])
        | some x =>
          simp only [hpp, Option.some.injEq] at hstep
          subst hstep
          simp only [List.filterMap_cons, hsl, Option.some_bind, hpp] at ih ⊢
          rw [ih]
          simp
      | none =>
        simp only [hsl, Option.some.injEq] at hstep
        subst hstep
        simp only [List.filterMap_cons, hsl, Option.none_bind] at ih ⊢
        exact ih

theorem batchLoop_scaler (a : Artifacts) (s : List Rat → List Rat) :
    ∀ (items : List RawItem) (i : Nat) (st : BatchState),
      batchLoop { a with scaler := s } i st items = batchLoop a i st items
  | [], _, _ => rfl
  | item :: rest, i, st => by
    simp only [batchLoop, Option.bind_eq_bind]
    have hbs : batchStep { a with scaler := s } st i item = batchStep a st i item :=
      rfl
    rw [hbs]
    cases batchStep a st i item with
    | none => rfl
    | some st1 =>
      simp only [Option.some_bind]
      exact batchLoop_scaler a s rest (i + 1) st1

/-- C2: The serving path never applies the bundle's fitted scaler: both
endpoints are invariant under replacing the scaler, the single-record
prediction is the model applied to the raw `preprocess_input` output,
and the batch feature matrix rows are exactly the unscaled
`preprocess_input` outputs of the valid items — even though
`train_models` fits and evaluates the linear candidate on the scaled
matrices (so the scaled pipeline is what the persisted scaler belongs
to). -/
theorem serving_unscaled (a : Artifacts) (s : List Rat → List Rat)
    (raw : RawItem) (braw : List RawItem) (mb : Nat) (data : Record)
    (x : List Rat) :
    predictSingle raw { a with scaler := s } = predictSingle raw a
    ∧ predict_batch braw { a with scaler := s } mb = predict_batch braw a mb
    ∧ (schemaLoad raw = some data → preprocess_input data a = some x →
        predictSingle raw a = .ok (round2 (a.model x)))
    ∧ (∀ st : BatchState, batchLoop a 0 ⟨[], [], []⟩ braw = some st →
        st.rows = braw.filterMap
          (fun it => (schemaLoad it).bind (fun d => preprocess_input d a)))
    ∧ (∀ (sqrt : Rat → Rat) (fitLR fitRF fitXGB : Fitter)
        (Xtr Xte : List (List Rat)) (ytr yte : List Rat)
        (Xtrsc Xtesc : List (List Rat)),
        (train_models sqrt fitLR fitRF fitXGB Xtr Xte ytr yte Xtrsc Xtesc).1.head? =
          some (evaluate sqrt "LinearRegression" yte (fitLR Xtrsc ytr Xtesc))) := by
  refine ⟨rfl, ?_, ?_, ?_, fun _ _ _ _ _ _ _ _ _ _ => rfl⟩
  · unfold predict_batch
    rw [batchLoop_scaler a s braw 0 ⟨[], [], []⟩]
  · intro h1 h2
    simp [predictSingle, h1, h2]
  · intro st hst
    simpa using batchLoop_rows a braw 0 ⟨[], [], []⟩ st hst

theorem serving_unscaled_witness :
    predictSingle sampleRaw { sampleArtifacts with scaler := fun _ => [] } =
      predictSingle sampleRaw sampleArtifacts
    ∧ predictSingle sampleRaw sampleArtifacts =
      .ok (round2 (sampleArtifacts.model
        ((preprocess_input sampleRecord sampleArtifacts).getD []))) := by
  have h := serving_unscaled sampleArtifacts (fun _ => []) sampleRaw [] 256
    sampleRecord ((preprocess_input sampleRecord sampleArtifacts).getD [])
  exact ⟨h.1, h.2.2.1 (by decide) (by decide)⟩

/-- The pairs that `zip(valid_indices, preds)` will contain for the
items from position `i` on: one `(index, model-prediction)` pair per
schema-valid item. -/
def validPairs (a : Artifacts) : Nat → List RawItem → List (Nat × Rat)
  | _, [] => []
  | i, it :: rest =>
    match (schemaLoad it).bind (fun d => preprocess_input d a) with
    | some x => (i, a.model x) :: validPairs a (i + 1) rest
    | none => validPairs a (i + 1) rest

theorem validPairs_key_lb (a : Artifacts) :
    ∀ (items : List RawItem) (i : Nat) (p : Nat × Rat),
      p ∈ validPairs a i items → i ≤ p.1
  | [], i, p, hp => by simp [validPairs] at hp
  | it :: rest, i, p, hp => by
    unfold validPairs at hp
    cases hit : (schemaLoad it).bind (fun d => preprocess_input d a) with
    | some x =>
      rw [hit] at hp
      rcases List.mem_cons.mp hp with rfl | hmem
      · exact le_refl _
      · exact le_trans (Nat.le_succ i) (validPairs_key_lb a rest (i + 1) p hmem)
    | none =>
      rw [hit] at hp
      exact le_trans (Nat.le_succ i) (validPairs_key_lb a rest (i + 1) p hp)

theorem validPairs_keys_nodup (a : Artifacts) :
    ∀ (items : List RawItem) (i : Nat),
      ((validPairs a i items).map Prod.fst).Nodup
  | [], i => by simp [validPairs]
  | it :: rest, i => by
    unfold validPairs
    cases hit : (schemaLoad it).bind (fun d => preprocess_input d a) with
    | some x =>
      simp only [List.map_cons, List.nodup_cons]
      refine ⟨?_, validPairs_keys_nodup a rest (i + 1)⟩
      intro hmem
      obtain ⟨p, hp, hfst⟩ := List.mem_map.mp hmem
      have := validPairs_key_lb a rest (i + 1) p hp
      omega
    | none => exact validPairs_keys_nodup a rest (i + 1)

theorem validPairs_find? (a : Artifacts) :
    ∀ (items : List RawItem) (i j : Nat),
      (validPairs a i items).find? (fun p => p.1 == i + j) =
        (items[j]?).bind (fun it =>
          match (schemaLoad it).bind (fun d => preprocess_input d a) with
          | some x => some (i + j, a.model x)
          | none => none)
  | [], i, j => by simp [validPairs]
  | it :: rest, i, j => by
    unfold validPairs
    cases hit : (schemaLoad it).bind (fun d => preprocess_input d a) with
    | some x =>
      cases j with
      | zero =>
        simp only [Nat.add_zero, List.getElem?_cons_zero, Option.some_bind, hit]
        rw [List.find?_cons_of_pos _ (by simp)]
      | succ j' =>
        have hkey : i + (j' + 1) = (i + 1) + j' := by omega
        rw [List.find?_cons_of_neg _ (by simp only [beq_iff_eq]; omega), hkey,
          validPairs_find? a rest (i + 1) j']
        simp
    | none =>
      cases j with
      | zero =>
        rw [List.find?_eq_none.mpr]
        · simp [hit]
        · intro p hp
          have := validPairs_key_lb a rest (i + 1) p hp
          simp only [beq_iff_eq]
          omega
      | succ j' =>
        have hkey : i + (j' + 1) = (i + 1) + j' := by omega
        rw [hkey, validPairs_find? a rest (i + 1) j']
        simp

theorem fillPreds_length :
    ∀ (pairs : List (Nat × Rat)) (res : List (Option BatchItem)),
      (fillPreds res pairs).length = res.length
  | [], _ => rfl
  | p :: rest, res => by
    show (fillPreds (res.set p.1 (some (.ok (round2 p.2)))) rest).length = _
    rw [fillPreds_length rest _, List.length_set]

theorem fillPreds_getElem? :
    ∀ (pairs : List (Nat × Rat)) (res : List (Option BatchItem)) (j : Nat),
      ((pairs.map Prod.fst).Nodup) →
      (fillPreds res pairs)[j]? =
        (match pairs.find? (fun p => p.1 == j) with
         | some p =>
           if j < res.length then some (some (.ok (round2 p.2))) else none
         | none => res[j]?)
  | [], res, j, _ => by simp [fillPreds]
  | p :: rest, res, j, hnd => by
    simp only [List.map_cons, List.nodup_cons] at hnd
    have ih := fillPreds_getElem? rest (res.set p.1 (some (.ok (round2 p.2)))) j hnd.2
    rw [show fillPreds res (p :: rest) =
      fillPreds (res.set p.1 (some (.ok (round2 p.2)))) rest from rfl, ih]
    by_cases hpj : p.1 = j
    · subst hpj
      have hrest : rest.find? (fun q => q.1 == p.1) = none := by
        rw [List.find?_eq_none]
        intro q hq
        simp only [beq_iff_eq]
        intro he
        exact hnd.1 (List.mem_map.mpr ⟨q, hq, he⟩)
      simp only [hrest]
      rw [List.find?_cons_of_pos _ (by simp)]
      show (res.set p.1 (some (.ok (round2 p.2))))[p.1]? =
        if p.1 < res.length then some (some (.ok (round2 p.2))) else none
      by_cases hlt : p.1 < res.length
      · rw [if_pos hlt, List.getElem?_set_self (by simpa using hlt)]
      · rw [if_neg hlt]
        exact List.getElem?_eq_none (by simp; omega)
    · rw [List.find?_cons_of_neg _ (by simpa using hpj)]
      cases hfr : rest.find? (fun q => q.1 == j) with
      | some q =>
        simp only [hfr]
        rw [List.length_set]
      | none =>
        simp only [hfr]
        rw [List.getElem?_set_ne hpj]

theorem batchLoop_spec (a : Artifacts)
    (hpp : ∀ d : Record, (preprocess_input d a).isSome) :
    ∀ (items : List RawItem) (i : Nat) (st : BatchState),
      st.valid_indices.length = st.rows.length →
      ∃ st', batchLoop a i st items = some st' ∧
        st'.valid_indices.length = st'.rows.length ∧
        st'.results = st.results ++ items.map (fun it =>
          if (schemaLoad it).isSome then none else some BatchItem.error) ∧
        st'.valid_indices.zip (st'.rows.map a.model) =
          st.valid_indices.zip (st.rows.map a.model) ++ validPairs a i items
  | [], i, st, hinv => ⟨st, rfl, hinv, by simp, by simp [validPairs]⟩
  | item :: rest, i, st, hinv => by
    cases hsl : schemaLoad item with
    | some data =>
      obtain ⟨x, hx⟩ := Option.isSome_iff_exists.mp (hpp data)
      have hstep : batchStep a st i item = some
          ⟨st.results ++ [none], st.valid_indices ++ [i], st.rows ++ [x]⟩ := by
        unfold batchStep
        simp only [hsl, hx]
      obtain ⟨st', hloop, hinv', hres, hzip⟩ :=
        batchLoop_spec a hpp rest (i + 1)
          ⟨st.results ++ [none], st.valid_indices ++ [i], st.rows ++ [x]⟩
          (by simp [hinv])
      refine ⟨st', ?_, hinv', ?_, ?_⟩
      · simp only [batchLoop, Option.bind_eq_bind, hstep, Option.some_bind]
        exact hloop
      · rw [hres]
        simp [hsl]
      · rw [hzip]
        have hz : (st.valid_indices ++ [i]).zip ((st.rows ++ [x]).map a.model) =
            st.valid_indices.zip (st.rows.map a.model) ++ [(i, a.model x)] := by
          rw [List.map_append, List.zip_append (by simpa using hinv)]
          rfl
        simp only [hz]
        rw [List.append_assoc]
        congr 1
        simp only [validPairs, hsl, Option.some_bind, hx]
        simp
    | none =>
      have hstep : batchStep a st i item = some
          ⟨st.results ++ [some BatchItem.error], st.valid_indices, st.rows⟩ := by
        unfold batchStep
        simp only [hsl]
      obtain ⟨st', hloop, hinv', hres, hzip⟩ :=
        batchLoop_spec a hpp rest (i + 1)
          ⟨st.results ++ [some BatchItem.error], st.valid_indices, st.rows⟩ hinv
      refine ⟨st', ?_, hinv', ?_, ?_⟩
      · simp only [batchLoop, Option.bind_eq_bind, hstep, Option.some_bind]
        exact hloop
      · rw [hres]
        simp [hsl]
      · rw [hzip]
        congr 1
        simp only [validPairs, hsl, Option.none_bind]

/-- The batch entry equivalent to a single-endpoint outcome: an `ok`
entry carrying the same demand, or an error entry. -/
def singleAsBatchItem : Except ApiError Rat → Option BatchItem
  | .ok d => some (.ok d)
  | .error _ => some .error

/-- C6: For every batch request within the size limit (over a
well-formed bundle), the response is a list with exactly one entry per
input index, positionally aligned: an item failing schema validation
yields an error entry at its own index without aborting the others, and
each valid item's entry carries exactly the demand the single-record
endpoint returns for that item. -/
theorem batch_partial_failure (braw : List RawItem) (a : Artifacts) (mb : Nat)
    (hb : bundleOk a) (hlen : braw.length ≤ mb) :
    ∃ res, predict_batch braw a mb = .ok res ∧ res.length = braw.length ∧
      ∀ j : Nat, res[j]? =
        (braw[j]?).map (fun it => singleAsBatchItem (predictSingle it a)) := by
  have hpp : ∀ d : Record, (preprocess_input d a).isSome :=
    fun d => (preprocess_isSome_iff d a).mpr hb
  obtain ⟨st, hloop, hinv, hres, hzip⟩ :=
    batchLoop_spec a hpp braw 0 ⟨[], [], []⟩ rfl
  simp only [List.nil_append] at hres
  rw [show (⟨[], [], []⟩ : BatchState).valid_indices.zip
    ((⟨[], [], []⟩ : BatchState).rows.map a.model) = [] from rfl,
    List.nil_append] at hzip
  have hpb : predict_batch braw a mb =
      .ok (fillPreds st.results (st.valid_indices.zip (st.rows.map a.model))) := by
    unfold predict_batch
    rw [if_neg (by omega : ¬ braw.length > mb), hloop]
    show (if st.rows.isEmpty = true then Except.ok st.results
      else Except.ok (fillPreds st.results
        (st.valid_indices.zip (st.rows.map a.model)))) = _
    cases hemp : st.rows.isEmpty
    · rw [if_neg (by simp [hemp])]
    · rw [if_pos (by simp [hemp])]
      have hrows : st.rows = [] := List.isEmpty_iff.mp (by simp [hemp])
      have hvi : st.valid_indices = [] :=
        List.eq_nil_of_length_eq_zero (by rw [hinv, hrows]; rfl)
      rw [hvi]
      rfl
  refine ⟨fillPreds st.results (validPairs a 0 braw),
    by rw [← hzip]; exact hpb, ?_, ?_⟩
  · rw [fillPreds_length, hres, List.length_map]
  · intro j
    rw [fillPreds_getElem? (validPairs a 0 braw) _ j (validPairs_keys_nodup a braw 0)]
    have hfind := validPairs_find? a braw 0 j
    simp only [Nat.zero_add] at hfind
    rw [hfind, hres]
    cases hbj : braw[j]? with
    | none => simp [hbj]
    | some it =>
      have hjlt : j < braw.length := by
        obtain ⟨hj, _⟩ := List.getElem?_eq_some_iff.mp hbj
        exact hj
      cases hsl : schemaLoad it with
      | some data =>
        obtain ⟨x, hx⟩ := Option.isSome_iff_exists.mp (hpp data)
        have hps : predictSingle it a = .ok (round2 (a.model x)) := by
          simp [predictSingle, hsl, hx]
        simp [hbj, hsl, hx, hps, singleAsBatchItem, hjlt]
      | none =>
        have hps : predictSingle it a = .error .validationFailed := by
          simp [predictSingle, hsl]
        simp [hbj, hsl, hps, singleAsBatchItem]

theorem batch_partial_failure_witness :
    ∃ res, predict_batch [sampleRaw, sampleRawBad, sampleRaw]
        sampleArtifacts 256 = .ok res ∧
      res.length = ([sampleRaw, sampleRawBad, sampleRaw] : List RawItem).length ∧
      ∀ j : Nat, res[j]? =
        (([sampleRaw, sampleRawBad, sampleRaw] : List RawItem)[j]?).map
          (fun it => singleAsBatchItem (predictSingle it sampleArtifacts)) :=
  batch_partial_failure [sampleRaw, sampleRawBad, sampleRaw] sampleArtifacts 256
    (by decide) (by decide)

/-- C7: A batch whose length is at most the configured maximum
(default 256) passes the capacity gate and is processed (over a
well-formed bundle it yields a per-item result list), while any longer
batch is rejected wholesale with a capacity error carrying no per-item
results. -/
theorem batch_capacity (a : Artifacts) (limit : Nat) (raw : List RawItem) :
    (raw.length > limit →
      predict_batch raw a limit = .error (.capacityExceeded raw.length limit))
    ∧ (raw.length ≤ limit → bundleOk a →
      ∃ res, predict_batch raw a limit = .ok res) := by
  constructor
  · intro hgt
    unfold predict_batch
    rw [if_pos hgt]
  · intro hle hb
    have hpp : ∀ d : Record, (preprocess_input d a).isSome :=
      fun d => (preprocess_isSome_iff d a).mpr hb
    obtain ⟨st, hloop, _, _, _⟩ := batchLoop_spec a hpp raw 0 ⟨[], [], []⟩ rfl
    unfold predict_batch
    rw [if_neg (by omega : ¬ raw.length > limit), hloop]
    show ∃ res, (if st.rows.isEmpty = true then Except.ok st.results
      else Except.ok (fillPreds st.results
        (st.valid_indices.zip (st.rows.map a.model)))) = Except.ok res
    cases hemp : st.rows.isEmpty
    · exact ⟨_, by rw [if_neg (by simp [hemp])]⟩
    · exact ⟨_, by rw [if_pos (by simp [hemp])]⟩

set_option maxRecDepth 4000 in
theorem batch_capacity_witness :
    predict_batch (List.replicate 257 ([] : RawItem)) sampleArtifacts 256 =
      .error (.capacityExceeded (List.replicate 257 ([] : RawItem)).length 256)
    ∧ ∃ res, predict_batch (List.replicate 256 ([] : RawItem))
        sampleArtifacts 256 = .ok res :=
  ⟨(batch_capacity sampleArtifacts 256 (List.replicate 257 ([] : RawItem))).1
      (by decide),
   (batch_capacity sampleArtifacts 256 (List.replicate 256 ([] : RawItem))).2
      (by decide) (by decide)⟩

end DemandForecast
